import Mathlib

/-!
Verification of the matchup-building and favorability-scoring core of the
mlb-stat repository (src/run.py and src/update.py).

The matchup builder (run.py lines 191-229, update.py lines 106-144) walks the
scraped pitcher rows two at a time and pairs every batter with the opposing
starter of its pitcher pair.  We embed the pitcher/batter rows as structures
carrying exactly the fields the Python dictionaries carry, and the builder as a
function into `Option (List Matchup)`: `none` models the run aborting with an
uncaught Python exception (an `IndexError` from `df_pitching.iloc[pitcher_index
+ 1]` when the pitcher count is odd, or a `KeyError` from `df_batter['team']`
when the batter table was built from an empty list and therefore has no
columns).

The scoring functions (run.py lines 70-105, update.py lines 185-195 and
252-261) are embedded over the real numbers: `math.log(x, 5)` becomes
`Real.logb 5 x`.
-/

namespace MlbStat

/-- One row of `data_pitching` (run.py lines 168-174): the starting pitcher of
one team, as scraped.  Field names follow the Python dictionary keys. -/
structure Pitcher where
  date : String
  game_time : String
  pitcher_name : String
  team : String
  lineup_throws : String
deriving DecidableEq

/-- One row of `data_batter` (run.py lines 176-184).  Field names follow the
Python dictionary keys; note that the scraped batter's own name is stored under
the key `pitcher_name` (the parse loop reuses `e.a.get_text` for both kinds of
row), and the matchup builder later copies it into `batter_name`. -/
structure Batter where
  date : String
  game_time : String
  pitcher_name : String
  team : String
  pos : String
  batting_order : Nat
  lineup_bats : String
deriving DecidableEq

/-- One element of the `matchups` list (run.py lines 202-213): a batter paired
against the opposing starter. -/
structure Matchup where
  date : String
  game_time : String
  pitcher_name : String
  pitcher_team : String
  pitcher_throws : String
  batter_name : String
  batter_team : String
  batter_position : String
  batting_order : Nat
  batter_bats : String
deriving DecidableEq

/-- The matchup dictionary appended for one batter `b` facing the opposing
starter `opp` (run.py lines 202-213 and, symmetrically, 216-227). -/
def recordFor (opp : Pitcher) (b : Batter) : Matchup :=
  ⟨b.date, b.game_time, opp.pitcher_name, opp.team, opp.lineup_throws,
   b.pitcher_name, b.team, b.pos, b.batting_order, b.lineup_bats⟩

/-- The matchup-building loop (run.py lines 191-229).  The loop walks the
pitcher rows two at a time; for the pair `(p1, p2)` it first emits one record
per batter whose `team` equals `p1.team` (each paired against `p2`), then one
record per batter whose `team` equals `p2.team` (each paired against `p1`).
`none` models the loop raising:
* a lone leftover pitcher makes `df_pitching.iloc[pitcher_index + 1]` raise
  `IndexError` (run.py line 196);
* a nonempty pitcher list combined with an empty batter list makes
  `df_batter['team']` raise `KeyError` (run.py line 198), because
  `pd.DataFrame([])` has no `team` column. -/
def buildMatchups : List Pitcher → List Batter → Option (List Matchup)
  | [], _ => some []
  | [_], _ => none
  | _ :: _ :: _, [] => none
  | p1 :: p2 :: rest, b0 :: bs =>
      (buildMatchups rest (b0 :: bs)).map (fun tail =>
        (((b0 :: bs).filter (fun b => b.team = p1.team)).map (recordFor p2) ++
         ((b0 :: bs).filter (fun b => b.team = p2.team)).map (recordFor p1)) ++ tail)

/-- A raw scraped lineup entry: either a pitcher row or a batter row
(the two branches of the parse loop, run.py lines 167-185). -/
inductive RawEntry where
  | pitcher (p : Pitcher)
  | batter (b : Batter)
deriving DecidableEq

/-- The pitcher rows of a raw entry sequence, in input order
(`data_pitching`). -/
def pitchersOf (es : List RawEntry) : List Pitcher :=
  es.filterMap (fun e => match e with | .pitcher p => some p | .batter _ => none)

/-- The batter rows of a raw entry sequence, in input order (`data_batter`). -/
def battersOf (es : List RawEntry) : List Batter :=
  es.filterMap (fun e => match e with | .batter b => some b | .pitcher _ => none)

/-- The matchup builder as a function of the raw entry sequence: partition the
entries into pitcher and batter rows and run the pairing loop. -/
def build_matchups (es : List RawEntry) : Option (List Matchup) :=
  buildMatchups (pitchersOf es) (battersOf es)

/-- The batter fields stored inside a matchup record, reassembled as a
`Batter` row.  `batterPart (recordFor p b) = b` holds definitionally. -/
def batterPart (m : Matchup) : Batter :=
  ⟨m.date, m.game_time, m.batter_name, m.batter_team, m.batter_position,
   m.batting_order, m.batter_bats⟩

/-- Adjacent pitcher pairs `(P[2k], P[2k+1])` have distinct teams. -/
def adjacentTeamsDistinct : List Pitcher → Prop
  | p1 :: p2 :: rest => p1.team ≠ p2.team ∧ adjacentTeamsDistinct rest
  | _ => True

/-- The opposing starter of a team `t`, read off the adjacent pitcher pairs:
inside the pair containing `t`, the other pitcher of that pair. -/
def opposingStarter : List Pitcher → String → Option Pitcher
  | p1 :: p2 :: rest, t =>
      if t = p1.team then some p2
      else if t = p2.team then some p1
      else opposingStarter rest t
  | _, _ => none

/-- The sum, over adjacent pitcher pairs, of the number of batters on each of
the pair's two teams. -/
def pairCountSum : List Pitcher → List Batter → Nat
  | p1 :: p2 :: rest, bs =>
      bs.countP (fun b => b.team = p1.team) + bs.countP (fun b => b.team = p2.team) +
        pairCountSum rest bs
  | _, _ => 0

/-- How many adjacent pitcher pairs pair batter `b` with a pitcher whose
header fields (name, team, throwing hand) are those of `q`. -/
def pairContrib : List Pitcher → Pitcher → Batter → Nat
  | p1 :: p2 :: rest, q, b =>
      (if b.team = p1.team ∧ recordFor p2 b = recordFor q b then 1 else 0) +
      (if b.team = p2.team ∧ recordFor p1 b = recordFor q b then 1 else 0) +
      pairContrib rest q b
  | _, _, _ => 0

/-- Two-step list induction, matching the shape of the pairing loop. -/
def twoStepInduction {α : Type _} {motive : List α → Sort _}
    (nil : motive [])
    (single : ∀ a, motive [a])
    (cons2 : ∀ a b rest, motive rest → motive (a :: b :: rest)) :
    ∀ l, motive l
  | [] => nil
  | [a] => single a
  | a :: b :: rest => cons2 a b rest (twoStepInduction nil single cons2 rest)

theorem batterPart_recordFor (p : Pitcher) (b : Batter) : batterPart (recordFor p b) = b := rfl

theorem buildMatchups_cons_cons (p1 p2 : Pitcher) (rest : List Pitcher)
    (bs : List Batter) (h : bs ≠ []) :
    buildMatchups (p1 :: p2 :: rest) bs =
      (buildMatchups rest bs).map (fun tail =>
        ((bs.filter (fun b => b.team = p1.team)).map (recordFor p2) ++
         (bs.filter (fun b => b.team = p2.team)).map (recordFor p1)) ++ tail) := by
  cases bs with
  | nil => exact absurd rfl h
  | cons b0 bs => rfl

/-- The function `determine_color` (run.py lines 70-79; update.py lines 252-261,
identical text in both files): map a score to an RGB triple. -/
noncomputable def determine_color (value : ℝ) : ℝ × ℝ × ℝ :=
  if value > 0 then
    let norm_value := value / 100
    let red_intensity := min 1 norm_value
    (1, 1 - red_intensity, 1 - red_intensity)
  else
    let norm_value := |value| / 100
    let blue_intensity := min 1 norm_value
    (1 - blue_intensity, 1 - blue_intensity, 1)

/-- The function `logarithmic_increase` (run.py lines 81-89; update.py lines
185-189, identical text): the saturating plate-appearance weight.  Python's
`math.log(y, 5)` is the base-5 logarithm, i.e. `Real.logb 5 y`. -/
noncomputable def logarithmic_increase (x : ℝ) (max_value : ℝ := 20) : ℝ :=
  if x < max_value then Real.logb 5 (x + 1) * max_value / Real.logb 5 (max_value + 1)
  else max_value

/-- The function `weighted_color_value` (run.py lines 91-105): the clipped and
shifted favorability score used by run.py. -/
noncomputable def weighted_color_value (pa ops : ℝ) : ℝ :=
  let log_val := logarithmic_increase pa
  let deviation := ops - 0.75
  if deviation > 0 then log_val * min deviation 0.5 + log_val * 0.5
  else if deviation < 0 then log_val * max deviation (-0.5) - log_val * 0.5
  else 0

/-- The scoring lambda of update.py (lines 193-195 and 220-222):
`2 * logarithmic_increase(PA) * (OPS - 0.75)`. -/
noncomputable def update_color_value (pa ops : ℝ) : ℝ :=
  2 * logarithmic_increase pa * (ops - 0.75)

/-! ### Basic facts about the plate-appearance weight -/

theorem logarithmic_increase_of_lt {x : ℝ} (h : x < 20) :
    logarithmic_increase x = Real.logb 5 (x + 1) * 20 / Real.logb 5 21 := by
  unfold logarithmic_increase
  rw [if_pos h]
  norm_num

theorem logarithmic_increase_of_ge {x : ℝ} (h : 20 ≤ x) :
    logarithmic_increase x = 20 := by
  unfold logarithmic_increase
  rw [if_neg (not_lt.mpr h)]

theorem logb_twentyone_pos : 0 < Real.logb 5 21 :=
  Real.logb_pos (by norm_num) (by norm_num)

theorem logarithmic_increase_zero : logarithmic_increase 0 = 0 := by
  rw [logarithmic_increase_of_lt (by norm_num)]
  norm_num [Real.logb_one]

theorem logarithmic_increase_twenty : logarithmic_increase 20 = 20 :=
  logarithmic_increase_of_ge le_rfl

theorem logarithmic_increase_nonneg {x : ℝ} (h : 0 ≤ x) : 0 ≤ logarithmic_increase x := by
  rcases lt_or_le x 20 with hx | hx
  · rw [logarithmic_increase_of_lt hx]
    have h1 : 0 ≤ Real.logb 5 (x + 1) := Real.logb_nonneg (by norm_num) (by linarith)
    exact div_nonneg (by nlinarith) (le_of_lt logb_twentyone_pos)
  · rw [logarithmic_increase_of_ge hx]; norm_num

theorem logarithmic_increase_pos {x : ℝ} (h : 0 < x) : 0 < logarithmic_increase x := by
  rcases lt_or_le x 20 with hx | hx
  · rw [logarithmic_increase_of_lt hx]
    have h1 : 0 < Real.logb 5 (x + 1) := Real.logb_pos (by norm_num) (by linarith)
    exact div_pos (by nlinarith) logb_twentyone_pos
  · rw [logarithmic_increase_of_ge hx]; norm_num

theorem logarithmic_increase_lt_of_lt {x : ℝ} (h0 : 0 ≤ x) (h : x < 20) :
    logarithmic_increase x < 20 := by
  rw [logarithmic_increase_of_lt h]
  rw [div_lt_iff₀ logb_twentyone_pos]
  have h1 : Real.logb 5 (x + 1) < Real.logb 5 21 :=
    Real.logb_lt_logb (by norm_num) (by linarith) (by linarith)
  nlinarith [logb_twentyone_pos]

theorem logarithmic_increase_mono {x y : ℝ} (h0 : 0 ≤ x) (hxy : x ≤ y) :
    logarithmic_increase x ≤ logarithmic_increase y := by
  rcases lt_or_le y 20 with hy | hy
  · have hx : x < 20 := lt_of_le_of_lt hxy hy
    rw [logarithmic_increase_of_lt hx, logarithmic_increase_of_lt hy]
    have h1 : Real.logb 5 (x + 1) ≤ Real.logb 5 (y + 1) :=
      Real.logb_le_logb_of_le (by norm_num) (by linarith) (by linarith)
    have h2 := logb_twentyone_pos
    rw [div_le_div_iff_of_pos_right h2]
    nlinarith
  · rw [logarithmic_increase_of_ge hy]
    rcases lt_or_le x 20 with hx | hx
    · exact le_of_lt (logarithmic_increase_lt_of_lt h0 hx)
    · rw [logarithmic_increase_of_ge hx]

/-! ### Branch lemmas for the run.py score -/

theorem weighted_color_value_of_pos {pa ops : ℝ} (h : 0.75 < ops) :
    weighted_color_value pa ops =
      logarithmic_increase pa * min (ops - 0.75) 0.5 + logarithmic_increase pa * 0.5 := by
  simp only [weighted_color_value]
  rw [if_pos (by linarith : ops - 0.75 > 0)]

theorem weighted_color_value_of_neg {pa ops : ℝ} (h : ops < 0.75) :
    weighted_color_value pa ops =
      logarithmic_increase pa * max (ops - 0.75) (-0.5) - logarithmic_increase pa * 0.5 := by
  simp only [weighted_color_value]
  rw [if_neg (by linarith : ¬ ops - 0.75 > 0), if_pos (by linarith : ops - 0.75 < 0)]

theorem weighted_color_value_baseline (pa : ℝ) : weighted_color_value pa 0.75 = 0 := by
  simp only [weighted_color_value]
  norm_num

theorem weighted_color_value_pa_zero (ops : ℝ) : weighted_color_value 0 ops = 0 := by
  rcases lt_trichotomy ops 0.75 with h | h | h
  · rw [weighted_color_value_of_neg h, logarithmic_increase_zero]; ring
  · rw [h, weighted_color_value_baseline]
  · rw [weighted_color_value_of_pos h, logarithmic_increase_zero]; ring

/-! ### Monotonicity of the run.py score -/

theorem weighted_color_value_mono_ops {pa o1 o2 : ℝ} (hpa : 0 ≤ pa) (h : o1 ≤ o2) :
    weighted_color_value pa o1 ≤ weighted_color_value pa o2 := by
  have hw : 0 ≤ logarithmic_increase pa := logarithmic_increase_nonneg hpa
  set w := logarithmic_increase pa with hwdef
  rcases lt_trichotomy o1 0.75 with h1 | h1 | h1
  · rcases lt_trichotomy o2 0.75 with h2 | h2 | h2
    · rw [weighted_color_value_of_neg h1, weighted_color_value_of_neg h2]
      have hmax : max (o1 - 0.75) (-0.5) ≤ max (o2 - 0.75) (-0.5) :=
        max_le_max (by linarith) le_rfl
      have := mul_le_mul_of_nonneg_left hmax hw
      linarith
    · rw [weighted_color_value_of_neg h1, h2, weighted_color_value_baseline]
      have hmax : max (o1 - 0.75) (-0.5) ≤ 0 := max_le (by linarith) (by norm_num)
      nlinarith
    · rw [weighted_color_value_of_neg h1, weighted_color_value_of_pos h2]
      have hmax : max (o1 - 0.75) (-0.5) ≤ 0 := max_le (by linarith) (by norm_num)
      have hmin : 0 ≤ min (o2 - 0.75) 0.5 := le_min (by linarith) (by norm_num)
      nlinarith
  · rw [h1, weighted_color_value_baseline]
    rcases eq_or_lt_of_le h with h2 | h2
    · rw [← h2, h1, weighted_color_value_baseline]
    · have h2' : 0.75 < o2 := by rw [← h1]; exact h2
      rw [weighted_color_value_of_pos h2']
      have hmin : 0 ≤ min (o2 - 0.75) 0.5 := le_min (by linarith) (by norm_num)
      nlinarith
  · have h2 : 0.75 < o2 := lt_of_lt_of_le h1 h
    rw [weighted_color_value_of_pos h1, weighted_color_value_of_pos h2]
    have hmin : min (o1 - 0.75) 0.5 ≤ min (o2 - 0.75) 0.5 :=
      min_le_min (by linarith) le_rfl
    have := mul_le_mul_of_nonneg_left hmin hw
    linarith

theorem weighted_color_value_mono_pa_of_pos {pa1 pa2 o : ℝ}
    (h0 : 0 ≤ pa1) (h12 : pa1 ≤ pa2) (ho : 0.75 < o) :
    weighted_color_value pa1 o ≤ weighted_color_value pa2 o := by
  have hw : logarithmic_increase pa1 ≤ logarithmic_increase pa2 :=
    logarithmic_increase_mono h0 h12
  rw [weighted_color_value_of_pos ho, weighted_color_value_of_pos ho]
  have hmin : 0 ≤ min (o - 0.75) 0.5 := le_min (by linarith) (by norm_num)
  have h1 := mul_le_mul_of_nonneg_right hw hmin
  nlinarith

theorem weighted_color_value_anti_pa_of_neg {pa1 pa2 o : ℝ}
    (h0 : 0 ≤ pa1) (h12 : pa1 ≤ pa2) (ho : o < 0.75) :
    weighted_color_value pa2 o ≤ weighted_color_value pa1 o := by
  have hw : logarithmic_increase pa1 ≤ logarithmic_increase pa2 :=
    logarithmic_increase_mono h0 h12
  rw [weighted_color_value_of_neg ho, weighted_color_value_of_neg ho]
  have hmax : max (o - 0.75) (-0.5) ≤ 0 := max_le (by linarith) (by norm_num)
  have h1 := mul_le_mul_of_nonpos_right hw hmax
  nlinarith

/-! ### One-sided limits of the run.py score at zero deviation -/

theorem weighted_color_value_tendsto_right (pa : ℝ) :
    Filter.Tendsto (fun o => weighted_color_value pa o)
      (nhdsWithin 0.75 (Set.Ioi 0.75)) (nhds (logarithmic_increase pa * 0.5)) := by
  have hmem : Set.Ioo (0.75 : ℝ) 1.25 ∈ nhdsWithin 0.75 (Set.Ioi 0.75) :=
    Ioo_mem_nhdsWithin_Ioi' (by norm_num)
  have hbase : Filter.Tendsto
      (fun o : ℝ => logarithmic_increase pa * (o - 0.75) + logarithmic_increase pa * 0.5)
      (nhds 0.75) (nhds (logarithmic_increase pa * 0.5)) := by
    have hc : Continuous fun o : ℝ =>
        logarithmic_increase pa * (o - 0.75) + logarithmic_increase pa * 0.5 := by
      fun_prop
    have h1 := hc.tendsto 0.75
    simpa using h1
  have hev : Filter.EventuallyEq (nhdsWithin 0.75 (Set.Ioi 0.75))
      (fun o : ℝ => logarithmic_increase pa * (o - 0.75) + logarithmic_increase pa * 0.5)
      (fun o => weighted_color_value pa o) := by
    filter_upwards [hmem] with o ho
    rw [weighted_color_value_of_pos ho.1, min_eq_left (by linarith [ho.2] : o - 0.75 ≤ 0.5)]
  exact Filter.Tendsto.congr' hev (hbase.mono_left nhdsWithin_le_nhds)

theorem weighted_color_value_tendsto_left (pa : ℝ) :
    Filter.Tendsto (fun o => weighted_color_value pa o)
      (nhdsWithin 0.75 (Set.Iio 0.75)) (nhds (-(logarithmic_increase pa * 0.5))) := by
  have hmem : Set.Ioo (0.25 : ℝ) 0.75 ∈ nhdsWithin 0.75 (Set.Iio 0.75) :=
    Ioo_mem_nhdsWithin_Iio' (by norm_num)
  have hbase : Filter.Tendsto
      (fun o : ℝ => logarithmic_increase pa * (o - 0.75) - logarithmic_increase pa * 0.5)
      (nhds 0.75) (nhds (-(logarithmic_increase pa * 0.5))) := by
    have hc : Continuous fun o : ℝ =>
        logarithmic_increase pa * (o - 0.75) - logarithmic_increase pa * 0.5 := by
      fun_prop
    have h1 := hc.tendsto 0.75
    simpa using h1
  have hev : Filter.EventuallyEq (nhdsWithin 0.75 (Set.Iio 0.75))
      (fun o : ℝ => logarithmic_increase pa * (o - 0.75) - logarithmic_increase pa * 0.5)
      (fun o => weighted_color_value pa o) := by
    filter_upwards [hmem] with o ho
    rw [weighted_color_value_of_neg ho.2, max_eq_left (by linarith [ho.1] : (-0.5 : ℝ) ≤ o - 0.75)]
  exact Filter.Tendsto.congr' hev (hbase.mono_left nhdsWithin_le_nhds)

theorem weighted_color_value_not_continuousAt {pa : ℝ} (h : 0 < pa) :
    ¬ ContinuousAt (weighted_color_value pa) 0.75 := by
  intro hc
  have h1 : Filter.Tendsto (fun o => weighted_color_value pa o)
      (nhdsWithin 0.75 (Set.Ioi 0.75)) (nhds 0) := by
    have h2 := hc.tendsto
    rw [weighted_color_value_baseline] at h2
    exact h2.mono_left nhdsWithin_le_nhds
  have h3 := weighted_color_value_tendsto_right pa
  have h4 : logarithmic_increase pa * 0.5 = 0 := tendsto_nhds_unique h3 h1
  have h5 := logarithmic_increase_pos h
  nlinarith

/-! ### Branch lemmas for determine_color -/

theorem determine_color_of_pos {v : ℝ} (h : 0 < v) :
    determine_color v = (1, 1 - min 1 (v / 100), 1 - min 1 (v / 100)) := by
  simp only [determine_color]
  rw [if_pos h]

theorem determine_color_of_nonpos {v : ℝ} (h : v ≤ 0) :
    determine_color v = (1 - min 1 (|v| / 100), 1 - min 1 (|v| / 100), 1) := by
  simp only [determine_color]
  rw [if_neg (not_lt.mpr h)]

/-! ### Claim theorems about the favorability scorer -/

/-- Claim C4 counterexample: at the concrete input PA = 20 the score is 0 at
OPS = 0.75 yet the score is NOT continuous there (the positive branch is
shifted up by half the weight, so the right-hand limit is 10, not 0). -/
theorem score_continuity_cx :
    weighted_color_value 20 0.75 = 0 ∧
    ¬ ContinuousAt (weighted_color_value 20) 0.75 :=
  ⟨weighted_color_value_baseline 20, weighted_color_value_not_continuousAt (by norm_num)⟩

/-- Claim C4 (amended): for fixed PA > 0 the score at OPS = 0.75 is 0, but the
one-sided limits at OPS = 0.75 are `+weight(PA)*0.5` (from the right) and
`-weight(PA)*0.5` (from the left), both nonzero, so the score JUMPS at zero
deviation instead of tending to 0: it is not continuous at OPS = 0.75. -/
theorem score_jump_at_baseline (pa : ℝ) (h : 0 < pa) :
    weighted_color_value pa 0.75 = 0 ∧
    Filter.Tendsto (fun o => weighted_color_value pa o)
      (nhdsWithin 0.75 (Set.Ioi 0.75)) (nhds (logarithmic_increase pa * 0.5)) ∧
    Filter.Tendsto (fun o => weighted_color_value pa o)
      (nhdsWithin 0.75 (Set.Iio 0.75)) (nhds (-(logarithmic_increase pa * 0.5))) ∧
    0 < logarithmic_increase pa * 0.5 ∧
    ¬ ContinuousAt (weighted_color_value pa) 0.75 :=
  ⟨weighted_color_value_baseline pa, weighted_color_value_tendsto_right pa,
   weighted_color_value_tendsto_left pa,
   by nlinarith [logarithmic_increase_pos h],
   weighted_color_value_not_continuousAt h⟩

/-- Witness for the amended C4 theorem at PA = 20. -/
theorem score_jump_at_baseline_witness :
    (0 : ℝ) < 20 ∧
    (weighted_color_value 20 0.75 = 0 ∧
     Filter.Tendsto (fun o => weighted_color_value 20 o)
       (nhdsWithin 0.75 (Set.Ioi 0.75)) (nhds (logarithmic_increase 20 * 0.5)) ∧
     Filter.Tendsto (fun o => weighted_color_value 20 o)
       (nhdsWithin 0.75 (Set.Iio 0.75)) (nhds (-(logarithmic_increase 20 * 0.5))) ∧
     0 < logarithmic_increase 20 * 0.5 ∧
     ¬ ContinuousAt (weighted_color_value 20) 0.75) :=
  ⟨by norm_num, score_jump_at_baseline 20 (by norm_num)⟩

/-- Claim C5 counterexample: at the concrete input OPS = 0.5 (deviation
-0.25 < 0, a fixed nonzero sign) and 0 ≤ PA1 = 0 ≤ PA2 = 10 < 20, the score
strictly DECREASES as PA grows, refuting monotone increase in PA. -/
theorem score_pa_monotonicity_cx :
    (0 : ℝ) ≤ 0 ∧ (0 : ℝ) ≤ 10 ∧ (10 : ℝ) < 20 ∧ (0.5 : ℝ) - 0.75 < 0 ∧
    weighted_color_value 10 0.5 < weighted_color_value 0 0.5 := by
  refine ⟨le_rfl, by norm_num, by norm_num, by norm_num, ?_⟩
  rw [weighted_color_value_pa_zero]
  rw [weighted_color_value_of_neg (by norm_num : (0.5 : ℝ) < 0.75)]
  rw [show (0.5 : ℝ) - 0.75 = -0.25 by norm_num,
    max_eq_left (by norm_num : (-0.5 : ℝ) ≤ -0.25)]
  have h := logarithmic_increase_pos (by norm_num : (0 : ℝ) < 10)
  nlinarith

/-- Claim C5 (amended): the score is monotone nondecreasing in OPS for every
fixed PA ≥ 0.  In PA below the cap, for a fixed OPS with positive deviation
the score is monotone nondecreasing in PA, but for a fixed OPS with negative
deviation it is monotone NONINCREASING in PA (more sample size pushes the
score further negative; only the magnitude grows monotonically). -/
theorem score_monotonicity (pa pa1 pa2 o1 o2 o : ℝ)
    (hpa : 0 ≤ pa) (ho12 : o1 ≤ o2) (hpa1 : 0 ≤ pa1) (hpa12 : pa1 ≤ pa2)
    (hcap : pa2 < 20) :
    weighted_color_value pa o1 ≤ weighted_color_value pa o2 ∧
    (0.75 < o → weighted_color_value pa1 o ≤ weighted_color_value pa2 o) ∧
    (o < 0.75 → weighted_color_value pa2 o ≤ weighted_color_value pa1 o) :=
  ⟨weighted_color_value_mono_ops hpa ho12,
   fun ho => weighted_color_value_mono_pa_of_pos hpa1 hpa12 ho,
   fun ho => weighted_color_value_anti_pa_of_neg hpa1 hpa12 ho⟩

/-- Witness for the amended C5 theorem at PA = 5, PA1 = 2, PA2 = 10,
OPS1 = 0.5, OPS2 = 1, OPS = 1. -/
theorem score_monotonicity_witness :
    (0 : ℝ) ≤ 5 ∧ (0.5 : ℝ) ≤ 1 ∧ (0 : ℝ) ≤ 2 ∧ (2 : ℝ) ≤ 10 ∧ (10 : ℝ) < 20 ∧
    (weighted_color_value 5 0.5 ≤ weighted_color_value 5 1 ∧
     (0.75 < (1 : ℝ) → weighted_color_value 2 1 ≤ weighted_color_value 10 1) ∧
     ((1 : ℝ) < 0.75 → weighted_color_value 10 1 ≤ weighted_color_value 2 1)) :=
  ⟨by norm_num, by norm_num, by norm_num, by norm_num, by norm_num,
   score_monotonicity 5 2 10 0.5 1 1 (by norm_num) (by norm_num) (by norm_num)
     (by norm_num) (by norm_num)⟩

/-- Claim C6: score sign symmetry — for PA ≥ 0 and 0 < d ≤ 0.5,
`score(PA, 0.75 + d) = -score(PA, 0.75 - d)`. -/
theorem score_sign_symmetry (pa d : ℝ) (hpa : 0 ≤ pa) (hd0 : 0 < d) (hd5 : d ≤ 0.5) :
    weighted_color_value pa (0.75 + d) = -weighted_color_value pa (0.75 - d) := by
  rw [weighted_color_value_of_pos (by linarith), weighted_color_value_of_neg (by linarith)]
  rw [show (0.75 + d) - 0.75 = d by ring, show (0.75 - d) - 0.75 = -d by ring]
  rw [show (-0.5 : ℝ) = -(0.5 : ℝ) by norm_num, max_neg_neg]
  ring

/-- Witness for C6 at PA = 12, d = 0.25. -/
theorem score_sign_symmetry_witness :
    (0 : ℝ) ≤ 12 ∧ (0 : ℝ) < 0.25 ∧ (0.25 : ℝ) ≤ 0.5 ∧
    weighted_color_value 12 (0.75 + 0.25) = -weighted_color_value 12 (0.75 - 0.25) :=
  ⟨by norm_num, by norm_num, by norm_num,
   score_sign_symmetry 12 0.25 (by norm_num) (by norm_num) (by norm_num)⟩

/-- Claim C7: score zero cases — `score(PA, 0.75) = 0` for every PA ≥ 0, and
`score(0, OPS) = 0` for every OPS ≥ 0, because `weight(0) = 0`; the no-data
default (all stats 0) therefore scores 0 with no special branch. -/
theorem score_zero_cases (pa ops : ℝ) (hpa : 0 ≤ pa) (hops : 0 ≤ ops) :
    weighted_color_value pa 0.75 = 0 ∧ weighted_color_value 0 ops = 0 :=
  ⟨weighted_color_value_baseline pa, weighted_color_value_pa_zero ops⟩

/-- Witness for C7 at PA = 7, OPS = 2. -/
theorem score_zero_cases_witness :
    (0 : ℝ) ≤ 7 ∧ (0 : ℝ) ≤ 2 ∧
    (weighted_color_value 7 0.75 = 0 ∧ weighted_color_value 0 2 = 0) :=
  ⟨by norm_num, by norm_num, score_zero_cases 7 2 (by norm_num) (by norm_num)⟩

/-- Claim C8: weight saturation — `weight(20) = weight(50) = 20`,
`weight(PA) = 20` for every PA ≥ 20, and for 0 ≤ PA < 20 the weight equals
`log5(PA+1) * 20 / log5(21)` and is strictly below the cap, so the cap is
reached exactly at PA = 20 and held beyond. -/
theorem weight_saturation (pa : ℝ) (hpa : 0 ≤ pa) :
    logarithmic_increase 20 = 20 ∧ logarithmic_increase 50 = 20 ∧
    (20 ≤ pa → logarithmic_increase pa = 20) ∧
    (pa < 20 → logarithmic_increase pa = Real.logb 5 (pa + 1) * 20 / Real.logb 5 21 ∧
      logarithmic_increase pa < 20) :=
  ⟨logarithmic_increase_twenty, logarithmic_increase_of_ge (by norm_num),
   fun h => logarithmic_increase_of_ge h,
   fun h => ⟨logarithmic_increase_of_lt h, logarithmic_increase_lt_of_lt hpa h⟩⟩

/-- Witness for C8 at PA = 50. -/
theorem weight_saturation_witness :
    (0 : ℝ) ≤ 50 ∧
    (logarithmic_increase 20 = 20 ∧ logarithmic_increase 50 = 20 ∧
     (20 ≤ (50 : ℝ) → logarithmic_increase 50 = 20) ∧
     ((50 : ℝ) < 20 → logarithmic_increase 50 =
        Real.logb 5 ((50 : ℝ) + 1) * 20 / Real.logb 5 21 ∧ logarithmic_increase 50 < 20)) :=
  ⟨by norm_num, weight_saturation 50 (by norm_num)⟩

/-- Claim C9: the two entry scripts compute different scores — at PA = 20,
OPS = 1 (both ≥ 0) update.py's `2 * weight * deviation` gives 10 while
run.py's clipped/shifted `weighted_color_value` gives 15. -/
theorem scoring_formulas_diverge :
    (0 : ℝ) ≤ 20 ∧ (0 : ℝ) ≤ 1 ∧
    update_color_value 20 1 = 10 ∧ weighted_color_value 20 1 = 15 ∧
    update_color_value 20 1 ≠ weighted_color_value 20 1 := by
  have hu : update_color_value 20 1 = 10 := by
    unfold update_color_value
    rw [logarithmic_increase_twenty]
    norm_num
  have hw : weighted_color_value 20 1 = 15 := by
    rw [weighted_color_value_of_pos (by norm_num : (0.75 : ℝ) < 1), logarithmic_increase_twenty]
    rw [show (1 : ℝ) - 0.75 = 0.25 by norm_num, min_eq_left (by norm_num : (0.25 : ℝ) ≤ 0.5)]
    norm_num
  exact ⟨by norm_num, by norm_num, hu, hw, by rw [hu, hw]; norm_num⟩

/-- Claim C10: `determine_color` is total on ℝ and always yields an RGB triple
with components in [0,1]; positive scores take the red branch, nonpositive
scores (including the boundary value 0) take the blue branch, and 0 maps to
pure white. -/
theorem determine_color_total_range (v : ℝ) :
    (0 < v → determine_color v = (1, 1 - min 1 (v / 100), 1 - min 1 (v / 100))) ∧
    (v ≤ 0 → determine_color v = (1 - min 1 (|v| / 100), 1 - min 1 (|v| / 100), 1)) ∧
    (determine_color v).1 ∈ Set.Icc (0 : ℝ) 1 ∧
    (determine_color v).2.1 ∈ Set.Icc (0 : ℝ) 1 ∧
    (determine_color v).2.2 ∈ Set.Icc (0 : ℝ) 1 ∧
    determine_color 0 = (1, 1, 1) := by
  have hwhite : determine_color 0 = ((1 : ℝ), (1 : ℝ), (1 : ℝ)) := by
    rw [determine_color_of_nonpos le_rfl]
    rw [show |(0 : ℝ)| / 100 = 0 by norm_num, min_eq_right (by norm_num : (0 : ℝ) ≤ 1)]
    norm_num
  have hcomp : (determine_color v).1 ∈ Set.Icc (0 : ℝ) 1 ∧
      (determine_color v).2.1 ∈ Set.Icc (0 : ℝ) 1 ∧
      (determine_color v).2.2 ∈ Set.Icc (0 : ℝ) 1 := by
    rcases lt_or_le 0 v with hv | hv
    · rw [determine_color_of_pos hv]
      have h0 : 0 ≤ min 1 (v / 100) := le_min (by norm_num) (by linarith)
      have h1 : min 1 (v / 100) ≤ 1 := min_le_left _ _
      exact ⟨⟨by norm_num, by norm_num⟩, ⟨by linarith, by linarith⟩, ⟨by linarith, by linarith⟩⟩
    · rw [determine_color_of_nonpos hv]
      have h0 : 0 ≤ min 1 (|v| / 100) := le_min (by norm_num) (by positivity)
      have h1 : min 1 (|v| / 100) ≤ 1 := min_le_left _ _
      exact ⟨⟨by linarith, by linarith⟩, ⟨by linarith, by linarith⟩, ⟨by norm_num, by norm_num⟩⟩
  exact ⟨fun h => determine_color_of_pos h, fun h => determine_color_of_nonpos h,
    hcomp.1, hcomp.2.1, hcomp.2.2, hwhite⟩

/-- Witness for C10 at v = 30 (red branch) and v = -30 (blue branch). -/
theorem determine_color_total_range_witness :
    determine_color 30 = (1, 1 - min 1 ((30 : ℝ) / 100), 1 - min 1 ((30 : ℝ) / 100)) ∧
    determine_color (-30) =
      (1 - min 1 (|(-30 : ℝ)| / 100), 1 - min 1 (|(-30 : ℝ)| / 100), 1) ∧
    (determine_color (30 : ℝ)).1 ∈ Set.Icc (0 : ℝ) 1 :=
  ⟨(determine_color_total_range 30).1 (by norm_num),
   (determine_color_total_range (-30)).2.1 (by norm_num),
   (determine_color_total_range 30).2.2.1⟩

/-! ### Structural lemmas about the matchup builder -/

theorem recordFor_eq_iff {p q : Pitcher} {x b : Batter} :
    recordFor p x = recordFor q b ↔ x = b ∧ recordFor p b = recordFor q b := by
  constructor
  · intro h
    have hx : x = b := by
      have h1 := congrArg batterPart h
      rwa [batterPart_recordFor, batterPart_recordFor] at h1
    subst hx
    exact ⟨rfl, h⟩
  · rintro ⟨hx, h⟩
    subst hx
    exact h

theorem buildMatchups_even (ps : List Pitcher) (bs : List Batter) :
    ∀ out, buildMatchups ps bs = some out → ps.length % 2 = 0 := by
  induction ps using twoStepInduction with
  | nil => intro out _; rfl
  | single a => intro out h; cases bs <;> simp [buildMatchups] at h
  | cons2 p1 p2 rest ih =>
    intro out h
    cases bs with
    | nil => simp [buildMatchups] at h
    | cons b0 bs' =>
      rw [buildMatchups_cons_cons _ _ _ _ (by simp)] at h
      rcases Option.map_eq_some'.mp h with ⟨tail, htail, -⟩
      have h2 := ih tail htail
      simp only [List.length_cons]
      omega

theorem buildMatchups_none_of_odd (ps : List Pitcher) (bs : List Batter)
    (h : ps.length % 2 = 1) : buildMatchups ps bs = none := by
  cases hb : buildMatchups ps bs with
  | none => rfl
  | some out =>
    have h2 := buildMatchups_even ps bs out hb
    omega

theorem buildMatchups_some (ps : List Pitcher) (bs : List Batter) :
    ps.length % 2 = 0 → (ps = [] ∨ bs ≠ []) → ∃ out, buildMatchups ps bs = some out := by
  induction ps using twoStepInduction with
  | nil => intro _ _; exact ⟨[], rfl⟩
  | single a => intro hlen _; simp at hlen
  | cons2 p1 p2 rest ih =>
    intro hlen hne
    have hbs : bs ≠ [] := by
      rcases hne with h | h
      · exact (List.cons_ne_nil _ _ h).elim
      · exact h
    have hlen' : rest.length % 2 = 0 := by
      simp only [List.length_cons] at hlen
      omega
    obtain ⟨tail, htail⟩ := ih hlen' (Or.inr hbs)
    exact ⟨_, by rw [buildMatchups_cons_cons _ _ _ _ hbs, htail]; rfl⟩

theorem buildMatchups_pitcher_team_ne (ps : List Pitcher) (bs : List Batter) :
    adjacentTeamsDistinct ps → ∀ out, buildMatchups ps bs = some out →
      ∀ m ∈ out, m.pitcher_team ≠ m.batter_team := by
  induction ps using twoStepInduction with
  | nil =>
    intro _ out h m hm
    simp only [buildMatchups, Option.some.injEq] at h
    subst h
    simp at hm
  | single a => intro _ out h; cases bs <;> simp [buildMatchups] at h
  | cons2 p1 p2 rest ih =>
    intro hd out h m hm
    obtain ⟨hne, hd'⟩ := hd
    cases bs with
    | nil => simp [buildMatchups] at h
    | cons b0 bs' =>
      rw [buildMatchups_cons_cons _ _ _ _ (by simp)] at h
      rcases Option.map_eq_some'.mp h with ⟨tail, htail, hout⟩
      subst hout
      rcases List.mem_append.mp hm with hm1 | hm1
      · rcases List.mem_append.mp hm1 with hm2 | hm2
        · rcases List.mem_map.mp hm2 with ⟨x, hxmem, rfl⟩
          have hxteam : x.team = p1.team := by
            have := (List.mem_filter.mp hxmem).2
            simpa using this
          show p2.team ≠ x.team
          rw [hxteam]
          exact Ne.symm hne
        · rcases List.mem_map.mp hm2 with ⟨x, hxmem, rfl⟩
          have hxteam : x.team = p2.team := by
            have := (List.mem_filter.mp hxmem).2
            simpa using this
          show p1.team ≠ x.team
          rw [hxteam]
          exact hne
      · exact ih hd' tail htail m hm1

theorem buildMatchups_length (ps : List Pitcher) (bs : List Batter) :
    ∀ out, buildMatchups ps bs = some out → out.length = pairCountSum ps bs := by
  induction ps using twoStepInduction with
  | nil =>
    intro out h
    simp only [buildMatchups, Option.some.injEq] at h
    subst h
    rfl
  | single a => intro out h; cases bs <;> simp [buildMatchups] at h
  | cons2 p1 p2 rest ih =>
    intro out h
    cases bs with
    | nil => simp [buildMatchups] at h
    | cons b0 bs' =>
      rw [buildMatchups_cons_cons _ _ _ _ (by simp)] at h
      rcases Option.map_eq_some'.mp h with ⟨tail, htail, hout⟩
      subst hout
      simp only [List.length_append, List.length_map, pairCountSum]
      rw [ih tail htail]
      rw [← List.countP_eq_length_filter, ← List.countP_eq_length_filter]

theorem block_countP_batterPart (bs : List Batter) (p1 p2 : Pitcher) (b : Batter) :
    ((bs.filter (fun x => x.team = p1.team)).map (recordFor p2)).countP
        (fun m => batterPart m = b) =
      bs.countP (fun x => x = b) * (if b.team = p1.team then 1 else 0) := by
  rw [List.countP_map, List.countP_filter]
  by_cases h1 : b.team = p1.team
  · rw [if_pos h1, mul_one]
    apply List.countP_congr
    intro x hx
    simp only [Function.comp_apply, Bool.and_eq_true, decide_eq_true_eq, batterPart_recordFor]
    constructor
    · rintro ⟨hxb, -⟩; exact hxb
    · intro hxb; subst hxb; exact ⟨rfl, h1⟩
  · rw [if_neg h1, mul_zero]
    refine List.countP_eq_zero.mpr ?_
    intro x hx
    simp only [Function.comp_apply, Bool.and_eq_true, decide_eq_true_eq, batterPart_recordFor,
      not_and]
    intro hxb ht
    subst hxb
    exact h1 ht

theorem block_countP_recordFor (bs : List Batter) (p1 p2 q : Pitcher) (b : Batter) :
    ((bs.filter (fun x => x.team = p1.team)).map (recordFor p2)).countP
        (fun m => m = recordFor q b) =
      bs.countP (fun x => x = b) *
        (if b.team = p1.team ∧ recordFor p2 b = recordFor q b then 1 else 0) := by
  rw [List.countP_map, List.countP_filter]
  by_cases hh : recordFor p2 b = recordFor q b
  · by_cases h1 : b.team = p1.team
    · rw [if_pos ⟨h1, hh⟩, mul_one]
      apply List.countP_congr
      intro x hx
      simp only [Function.comp_apply, Bool.and_eq_true, decide_eq_true_eq]
      constructor
      · rintro ⟨heq, -⟩; exact (recordFor_eq_iff.mp heq).1
      · intro hxb; subst hxb; exact ⟨recordFor_eq_iff.mpr ⟨rfl, hh⟩, h1⟩
    · rw [if_neg (fun hc => h1 hc.1), mul_zero]
      refine List.countP_eq_zero.mpr ?_
      intro x hx
      simp only [Function.comp_apply, Bool.and_eq_true, decide_eq_true_eq, not_and]
      intro heq ht
      rcases recordFor_eq_iff.mp heq with ⟨hxb, -⟩
      subst hxb
      exact h1 ht
  · rw [if_neg (fun hc => hh hc.2), mul_zero]
    refine List.countP_eq_zero.mpr ?_
    intro x hx
    simp only [Function.comp_apply, Bool.and_eq_true, decide_eq_true_eq, not_and]
    intro heq ht
    exact hh (recordFor_eq_iff.mp heq).2

theorem countP_team_cons (ps : List Pitcher) (p : Pitcher) (b : Batter) :
    (p :: ps).countP (fun q => b.team = q.team) =
      ps.countP (fun q => b.team = q.team) + (if b.team = p.team then 1 else 0) := by
  by_cases h : b.team = p.team
  · rw [List.countP_cons_of_pos _ _ (by simpa using h), if_pos h]
  · rw [List.countP_cons_of_neg _ _ (by simpa using h), if_neg h, Nat.add_zero]

theorem buildMatchups_countP_batterPart (ps : List Pitcher) (bs : List Batter) (b : Batter) :
    ∀ out, buildMatchups ps bs = some out →
      out.countP (fun m => batterPart m = b) =
        bs.countP (fun x => x = b) * ps.countP (fun p => b.team = p.team) := by
  induction ps using twoStepInduction with
  | nil =>
    intro out h
    simp only [buildMatchups, Option.some.injEq] at h
    subst h
    simp
  | single a => intro out h; cases bs <;> simp [buildMatchups] at h
  | cons2 p1 p2 rest ih =>
    intro out h
    cases bs with
    | nil => simp [buildMatchups] at h
    | cons b0 bs' =>
      rw [buildMatchups_cons_cons _ _ _ _ (by simp)] at h
      rcases Option.map_eq_some'.mp h with ⟨tail, htail, hout⟩
      subst hout
      rw [List.countP_append, List.countP_append,
        block_countP_batterPart, block_countP_batterPart, ih tail htail,
        countP_team_cons, countP_team_cons]
      ring

theorem buildMatchups_countP_recordFor (ps : List Pitcher) (bs : List Batter)
    (q : Pitcher) (b : Batter) :
    ∀ out, buildMatchups ps bs = some out →
      out.countP (fun m => m = recordFor q b) =
        bs.countP (fun x => x = b) * pairContrib ps q b := by
  induction ps using twoStepInduction with
  | nil =>
    intro out h
    simp only [buildMatchups, Option.some.injEq] at h
    subst h
    simp [pairContrib]
  | single a => intro out h; cases bs <;> simp [buildMatchups] at h
  | cons2 p1 p2 rest ih =>
    intro out h
    cases bs with
    | nil => simp [buildMatchups] at h
    | cons b0 bs' =>
      rw [buildMatchups_cons_cons _ _ _ _ (by simp)] at h
      rcases Option.map_eq_some'.mp h with ⟨tail, htail, hout⟩
      subst hout
      rw [List.countP_append, List.countP_append,
        block_countP_recordFor, block_countP_recordFor, ih tail htail]
      simp only [pairContrib]
      ring

theorem pairContrib_eq_zero (ps : List Pitcher) (q : Pitcher) (b : Batter)
    (h : ∀ p ∈ ps, b.team ≠ p.team) : pairContrib ps q b = 0 := by
  induction ps using twoStepInduction with
  | nil => rfl
  | single a => rfl
  | cons2 p1 p2 rest ih =>
    have h1 := h p1 (by simp)
    have h2 := h p2 (by simp)
    simp only [pairContrib]
    rw [if_neg (fun hc => h1 hc.1), if_neg (fun hc => h2 hc.1),
      ih (fun p hp => h p (by simp [hp]))]

theorem opposingStarter_spec (ps : List Pitcher) (b : Batter) :
    ps.length % 2 = 0 → ps.countP (fun p => b.team = p.team) = 1 →
      ∃ p, opposingStarter ps b.team = some p ∧ pairContrib ps p b = 1 := by
  induction ps using twoStepInduction with
  | nil => intro _ h1; simp at h1
  | single a => intro hlen _; simp at hlen
  | cons2 p1 p2 rest ih =>
    intro hlen h1
    have hlen' : rest.length % 2 = 0 := by
      simp only [List.length_cons] at hlen
      omega
    rw [countP_team_cons, countP_team_cons] at h1
    by_cases ht1 : b.team = p1.team <;> by_cases ht2 : b.team = p2.team
    · rw [if_pos ht1, if_pos ht2] at h1
      omega
    · rw [if_pos ht1, if_neg ht2] at h1
      have hrest : rest.countP (fun p => b.team = p.team) = 0 := by omega
      have hall : ∀ p ∈ rest, b.team ≠ p.team := by
        intro p hp
        have hz := List.countP_eq_zero.mp hrest p hp
        simpa using hz
      refine ⟨p2, ?_, ?_⟩
      · simp only [opposingStarter]
        rw [if_pos ht1]
      · simp only [pairContrib]
        rw [if_pos ⟨ht1, trivial⟩, if_neg (fun hc => ht2 hc.1), pairContrib_eq_zero rest p2 b hall]
    · rw [if_neg ht1, if_pos ht2] at h1
      have hrest : rest.countP (fun p => b.team = p.team) = 0 := by omega
      have hall : ∀ p ∈ rest, b.team ≠ p.team := by
        intro p hp
        have hz := List.countP_eq_zero.mp hrest p hp
        simpa using hz
      refine ⟨p1, ?_, ?_⟩
      · simp only [opposingStarter]
        rw [if_neg ht1, if_pos ht2]
      · simp only [pairContrib]
        rw [if_neg (fun hc => ht1 hc.1), if_pos ⟨ht2, trivial⟩, pairContrib_eq_zero rest p1 b hall]
    · rw [if_neg ht1, if_neg ht2] at h1
      have hrest : rest.countP (fun p => b.team = p.team) = 1 := by omega
      obtain ⟨p, hp1, hp2⟩ := ih hlen' hrest
      refine ⟨p, ?_, ?_⟩
      · simp only [opposingStarter]
        rw [if_neg ht1, if_neg ht2]
        exact hp1
      · simp only [pairContrib]
        rw [if_neg (fun hc => ht1 hc.1), if_neg (fun hc => ht2 hc.1), hp2]

/-! ### Sample data for concrete witnesses -/

def samplePitcherA : Pitcher := ⟨"2025-06-01", "7:05 PM", "Ace Arrow", "AAA", "R"⟩

def samplePitcherB : Pitcher := ⟨"2025-06-01", "7:05 PM", "Burt Bolt", "BBB", "L"⟩

def sampleBatterA : Batter := ⟨"2025-06-01", "7:05 PM", "Al Alpha", "AAA", "C", 1, "R"⟩

def sampleBatterB : Batter := ⟨"2025-06-01", "7:05 PM", "Bo Bravo", "BBB", "1B", 1, "L"⟩

def sampleEntries : List RawEntry :=
  [RawEntry.pitcher samplePitcherA, RawEntry.batter sampleBatterA,
   RawEntry.pitcher samplePitcherB, RawEntry.batter sampleBatterB]

/-! ### Claim theorems about the matchup builder -/

/-- Claim C2: an input whose pitcher-entry count is odd makes the build step
fail the whole run (the loop reads the missing opposing pitcher with
`df_pitching.iloc[pitcher_index + 1]`, raising IndexError), so no sequence of
matchup records is produced. -/
theorem odd_pitcher_count_fails (es : List RawEntry)
    (h : (pitchersOf es).length % 2 = 1) : build_matchups es = none :=
  buildMatchups_none_of_odd _ _ h

/-- Witness for C2: a single pitcher entry and no batters. -/
theorem odd_pitcher_count_fails_witness :
    (pitchersOf [RawEntry.pitcher samplePitcherA]).length % 2 = 1 ∧
    build_matchups [RawEntry.pitcher samplePitcherA] = none :=
  ⟨rfl, odd_pitcher_count_fails [RawEntry.pitcher samplePitcherA] rfl⟩

/-- Claim C1 counterexample: two pitchers with distinct teams and zero batter
entries satisfy all hypotheses of the claim (even pitcher count, distinct pair
teams, and — vacuously — every batter matching exactly one pitcher), yet the
build step produces no records at all: `pd.DataFrame([])` has no columns, so
the very first `df_batter['team']` lookup raises KeyError and the run dies
before any matchup is emitted. -/
theorem pairing_correct_cx :
    (pitchersOf [RawEntry.pitcher samplePitcherA, RawEntry.pitcher samplePitcherB]).length % 2
        = 0 ∧
    adjacentTeamsDistinct
      (pitchersOf [RawEntry.pitcher samplePitcherA, RawEntry.pitcher samplePitcherB]) ∧
    (∀ b ∈ battersOf [RawEntry.pitcher samplePitcherA, RawEntry.pitcher samplePitcherB],
      (pitchersOf [RawEntry.pitcher samplePitcherA, RawEntry.pitcher samplePitcherB]).countP
        (fun p => b.team = p.team) = 1) ∧
    build_matchups [RawEntry.pitcher samplePitcherA, RawEntry.pitcher samplePitcherB] = none :=
  ⟨rfl, ⟨by decide, trivial⟩, by decide, rfl⟩

/-- Claim C1 (amended): under the claim's hypotheses — an even number of
pitcher entries, adjacent pitcher pairs with distinct teams, and every
batter's team equal to the team of exactly one pitcher entry — AND provided
the input is not of the degenerate shape "at least one pitcher but zero batter
entries" (on which the build step crashes with a pandas KeyError instead of
emitting records), the builder emits exactly one record per batter occurrence,
pairing it against the opposing starter of its pitcher pair: every output
record's pitcher team differs from its batter team, for every batter the
records carrying that batter are exactly the ones pairing it with its opposing
starter (as many as the batter occurs in the input), and the output length is
the sum over pitcher pairs of the number of batters on the pair's two teams. -/
theorem pairing_correct (es : List RawEntry)
    (hlen : (pitchersOf es).length % 2 = 0)
    (hadj : adjacentTeamsDistinct (pitchersOf es))
    (huniq : ∀ b ∈ battersOf es,
      (pitchersOf es).countP (fun p => b.team = p.team) = 1)
    (hne : pitchersOf es = [] ∨ battersOf es ≠ []) :
    ∃ out, build_matchups es = some out ∧
      (∀ m ∈ out, m.pitcher_team ≠ m.batter_team) ∧
      (∀ b ∈ battersOf es,
        ∃ p, opposingStarter (pitchersOf es) b.team = some p ∧
          out.countP (fun m => batterPart m = b) =
            (battersOf es).countP (fun x => x = b) ∧
          out.countP (fun m => m = recordFor p b) =
            (battersOf es).countP (fun x => x = b)) ∧
      out.length = pairCountSum (pitchersOf es) (battersOf es) := by
  obtain ⟨out, hout⟩ := buildMatchups_some (pitchersOf es) (battersOf es) hlen hne
  refine ⟨out, hout, buildMatchups_pitcher_team_ne _ _ hadj out hout, ?_,
    buildMatchups_length _ _ out hout⟩
  intro b hb
  obtain ⟨p, hp1, hp2⟩ := opposingStarter_spec (pitchersOf es) b hlen (huniq b hb)
  refine ⟨p, hp1, ?_, ?_⟩
  · rw [buildMatchups_countP_batterPart _ _ b out hout, huniq b hb, mul_one]
  · rw [buildMatchups_countP_recordFor _ _ p b out hout, hp2, mul_one]

/-- Witness for the amended C1 theorem: one game, each side with one pitcher
and one batter. -/
theorem pairing_correct_witness :
    ∃ out, build_matchups sampleEntries = some out ∧
      (∀ m ∈ out, m.pitcher_team ≠ m.batter_team) ∧
      (∀ b ∈ battersOf sampleEntries,
        ∃ p, opposingStarter (pitchersOf sampleEntries) b.team = some p ∧
          out.countP (fun m => batterPart m = b) =
            (battersOf sampleEntries).countP (fun x => x = b) ∧
          out.countP (fun m => m = recordFor p b) =
            (battersOf sampleEntries).countP (fun x => x = b)) ∧
      out.length = pairCountSum (pitchersOf sampleEntries) (battersOf sampleEntries) :=
  pairing_correct sampleEntries rfl ⟨by decide, trivial⟩ (by decide) (Or.inr (by decide))

end MlbStat
